import Mathlib

/-!
Verification of the dynamic heading-extraction core of the generic PDF
heading extractor (`main_hackathon_optimized.py`, class
`GenericPDFHeadingExtractor`, together with `data_structures.TextBlock`).

The Python code is shallowly embedded: floats become rationals (every
constant in the source is a short decimal, so rational arithmetic agrees
with the float runs on all inputs exercised here), Python strings become
`String` restricted to the ASCII behaviour the source relies on, and the
regular expressions of `heading_indicators` / the classifier are unfolded
into explicit character automata with exactly the same languages on
newline-free ASCII text.
-/

namespace PdfExtract

/-- Python `str` whitespace (ASCII range), as used by `str.strip` and
`str.split()` and by the regex class `\s`. -/
def pyIsSpace (c : Char) : Bool :=
  c = ' ' || c = '\t' || c = '\n' || c = '\r' || c = '\x0b' || c = '\x0c'

/-- Python `text.strip()` (ASCII whitespace). -/
def pyStrip (s : String) : String :=
  String.mk (((s.toList.dropWhile pyIsSpace).reverse.dropWhile pyIsSpace).reverse)

/-- Python `text.lower()` (ASCII letters; the keyword tables are ASCII). -/
def pyLower (s : String) : String :=
  String.mk (s.toList.map Char.toLower)

/-- Helper for Python `text.split()`: accumulate the current word (reversed)
while walking the characters. -/
def wordsAux : List Char → List Char → List String
  | [], cur => if cur.isEmpty then [] else [String.mk cur.reverse]
  | c :: rest, cur =>
    if pyIsSpace c then
      if cur.isEmpty then wordsAux rest [] else String.mk cur.reverse :: wordsAux rest []
    else wordsAux rest (c :: cur)

/-- Python `text.split()` with no separator: maximal runs of non-whitespace. -/
def pyWords (s : String) : List String := wordsAux s.toList []

/-- Python `len(text.split())`. -/
def wordCount (s : String) : Nat := (pyWords s).length

/-- ASCII letter (what `[A-Z]` matches under `re.IGNORECASE`). -/
def isAsciiLetter (c : Char) : Bool := (c ≥ 'A' && c ≤ 'Z') || (c ≥ 'a' && c ≤ 'z')

/-- ASCII uppercase letter (what `[A-Z]` matches without flags). -/
def isAsciiUpper (c : Char) : Bool := c ≥ 'A' && c ≤ 'Z'

/-- ASCII lowercase letter (what `[a-z]` matches without flags). -/
def isAsciiLower (c : Char) : Bool := c ≥ 'a' && c ≤ 'z'

/-- Contiguous-substring test, Python `pat in s` on character lists. -/
def hasSubstr : List Char → List Char → Bool
  | [], pat => pat.isEmpty
  | c :: rest, pat => pat.isPrefixOf (c :: rest) || hasSubstr rest pat

/-- Python `str.isupper()` on ASCII text: at least one cased character and
no lowercase cased character. -/
def pyIsUpperStr (s : String) : Bool :=
  s.toList.any isAsciiUpper && s.toList.all (fun c => !(isAsciiLower c))

/-!  The seven `heading_indicators` regexes, matched with `re.match(...,
re.IGNORECASE)` in `_calculate_heading_confidence` (prefix match).  The
character classes of the regexes are pairwise disjoint where backtracking
could arise, so each regex is decided by a deterministic automaton. -/

/-- State machine for the tail of `^\d+\.(\d+\.)*\s+` after the first
`\d+\.`.  `inDigits = true` means we are inside a `\d+` of a group and
still owe the closing `.`; `inDigits = false` means a group boundary where
either `\s` (accept) or another digit group may start. -/
def nsRun : Bool → List Char → Bool
  | _, [] => false
  | true, c :: rest =>
    if c.isDigit then nsRun true rest
    else if c = '.' then nsRun false rest
    else false
  | false, c :: rest =>
    if pyIsSpace c then true
    else if c.isDigit then nsRun true rest
    else false

/-- `'numbered_section': r'^\d+\.(\d+\.)*\s+'` (case has no effect). -/
def icNumberedSection (s : String) : Bool :=
  match s.toList with
  | c :: rest => c.isDigit && nsRun true rest
  | [] => false

/-- Tail automaton for `^\d+\)\s+` after the first digit: `\d*` then `)`
then one whitespace. -/
def nlRun : List Char → Bool
  | [] => false
  | c :: rest =>
    if c.isDigit then nlRun rest
    else if c = ')' then
      match rest with
      | c2 :: _ => pyIsSpace c2
      | [] => false
    else false

/-- `'numbered_list': r'^\d+\)\s+'` (case has no effect). -/
def icNumberedList (s : String) : Bool :=
  match s.toList with
  | c :: rest => c.isDigit && nlRun rest
  | [] => false

/-- `'lettered_list': r'^[A-Z]\)\s+'` under IGNORECASE: any ASCII letter. -/
def icLetteredList (s : String) : Bool :=
  match s.toList with
  | c0 :: ')' :: c2 :: _ => isAsciiLetter c0 && pyIsSpace c2
  | _ => false

/-- One of the bullet characters of `'bullet_point'`. -/
def isBulletChar (c : Char) : Bool :=
  c = '•' || c = '·' || c = '▪' || c = '▫' || c = '◦' || c = '‣' || c = '⁃'

/-- `'bullet_point': r'^[•·▪▫◦‣⁃]\s+'`. -/
def icBulletPoint (s : String) : Bool :=
  match s.toList with
  | c0 :: c1 :: _ => isBulletChar c0 && pyIsSpace c1
  | _ => false

/-- Tail of `.*:$` on newline-free text: the remaining characters must end
in `:` with only non-newline characters before it. -/
def tccTail : List Char → Bool
  | [] => false
  | [c] => c = ':'
  | c :: c2 :: rest => c ≠ '\n' && tccTail (c2 :: rest)

/-- `'title_case_colon': r'^[A-Z][a-z].*:$'` under IGNORECASE: both leading
characters may be any ASCII letter. -/
def icTitleCaseColon (s : String) : Bool :=
  match s.toList with
  | c0 :: c1 :: rest => isAsciiLetter c0 && isAsciiLetter c1 && tccTail rest
  | _ => false

/-- Character class `[A-Z\s\d\-_]` under IGNORECASE. -/
def allCapsClass (c : Char) : Bool :=
  isAsciiLetter c || pyIsSpace c || c.isDigit || c = '-' || c = '_'

/-- `'all_caps': r'^[A-Z\s\d\-_]+$'` under IGNORECASE. -/
def icAllCaps (s : String) : Bool :=
  !s.toList.isEmpty && s.toList.all allCapsClass

/-- `'mixed_case_short': r'^[A-Z][a-zA-Z\s]{2,50}$'` under IGNORECASE. -/
def icMixedCaseShort (s : String) : Bool :=
  match s.toList with
  | c0 :: rest =>
    isAsciiLetter c0 && rest.all (fun c => isAsciiLetter c || pyIsSpace c)
      && decide (2 ≤ rest.length) && decide (rest.length ≤ 50)
  | [] => false

/-!  The three numbered-prefix regexes of `classify_heading_level_dynamic`
(no IGNORECASE flag there, but they contain no cased characters), plus the
strict `^[A-Z][a-z].*:$` and `^[A-Z]` used without the flag. -/

/-- Greedy split of a leading digit run. -/
def splitDigits (l : List Char) : List Char × List Char :=
  (l.takeWhile Char.isDigit, l.dropWhile Char.isDigit)

/-- `re.match(r'^\d+\.\s+', _)`. -/
def matchN1 (s : String) : Bool :=
  let p := splitDigits s.toList
  !p.1.isEmpty &&
    match p.2 with
    | '.' :: c :: _ => pyIsSpace c
    | _ => false

/-- `re.match(r'^\d+\.\d+\s+', _)`. -/
def matchN2 (s : String) : Bool :=
  let p := splitDigits s.toList
  !p.1.isEmpty &&
    match p.2 with
    | '.' :: r2 =>
      let q := splitDigits r2
      !q.1.isEmpty &&
        match q.2 with
        | c :: _ => pyIsSpace c
        | [] => false
    | _ => false

/-- `re.match(r'^\d+\.\d+\.\d+\s+', _)`. -/
def matchN3 (s : String) : Bool :=
  let p := splitDigits s.toList
  !p.1.isEmpty &&
    match p.2 with
    | '.' :: r2 =>
      let q := splitDigits r2
      !q.1.isEmpty &&
        match q.2 with
        | '.' :: r3 =>
          let w := splitDigits r3
          !w.1.isEmpty &&
            match w.2 with
            | c :: _ => pyIsSpace c
            | [] => false
        | _ => false
    | _ => false

/-- `re.match(r'^[A-Z][a-z].*:$', _)` without IGNORECASE. -/
def matchTitleColonStrict (s : String) : Bool :=
  match s.toList with
  | c0 :: c1 :: rest => isAsciiUpper c0 && isAsciiLower c1 && tccTail rest
  | _ => false

/-- `re.match(r'^[A-Z]', _)` without IGNORECASE. -/
def startsUpperAZ (s : String) : Bool :=
  match s.toList with
  | c :: _ => isAsciiUpper c
  | [] => false

/-!  Keyword tables (`heading_keywords`), iterated in insertion order
structural → sectional → organizational, first hit wins (`break`). -/

def structuralKeywords : List String :=
  ["table of contents", "contents", "index", "references", "bibliography",
   "appendix", "glossary", "acknowledgements", "preface", "foreword"]

def sectionalKeywords : List String :=
  ["introduction", "overview", "summary", "conclusion", "background",
   "methodology", "results", "discussion", "abstract", "executive summary"]

def organizationalKeywords : List String :=
  ["chapter", "section", "part", "unit", "module", "lesson"]

/-- `any(keyword in text_lower for keyword in keywords)`. -/
def containsAny (lower : String) (kws : List String) : Bool :=
  kws.any (fun k => hasSubstr lower.toList k.toList)

/-- Keyword bonus of `_calculate_heading_confidence` (weights .25/.2/.15). -/
def keywordBonusConf (lower : String) : ℚ :=
  if containsAny lower structuralKeywords then 0.25
  else if containsAny lower sectionalKeywords then 0.2
  else if containsAny lower organizationalKeywords then 0.15
  else 0

/-- Keyword bonus of `classify_heading_level_dynamic` (weights .7/.5/.4). -/
def keywordBonusLevel (lower : String) : ℚ :=
  if containsAny lower structuralKeywords then 0.7
  else if containsAny lower sectionalKeywords then 0.5
  else if containsAny lower organizationalKeywords then 0.4
  else 0

/-- Pattern bonus of `_calculate_heading_confidence`: the `heading_indicators`
dictionary is walked in insertion order, only the first match contributes
(`break`); numbered patterns +0.25, title-case-colon / all-caps +0.2, the
remaining patterns +0.15. -/
def patternBonusConf (text : String) : ℚ :=
  if icNumberedSection text then 0.25
  else if icNumberedList text then 0.25
  else if icLetteredList text then 0.15
  else if icBulletPoint text then 0.15
  else if icTitleCaseColon text then 0.2
  else if icAllCaps text then 0.2
  else if icMixedCaseShort text then 0.15
  else 0

/-!  Data model.  `TextBlock` (data_structures.py) restricted to the fields
the core reads: `text`, `font_size`, `font_name`, `is_bold`, `page`.  All
other fields (bbox, flags, ratios, …) are never consumed by
`GenericPDFHeadingExtractor`. -/

structure Block where
  text : String
  font_size : ℚ
  font_name : String
  is_bold : Bool
  page : Nat
  deriving DecidableEq

instance : Inhabited Block := ⟨⟨"", 0, "", false, 0⟩⟩

/-- The fields of the `analyze_font_statistics` result that are consumed
downstream (`avg_size`, `max_size`) together with the percentile fields the
specification documents (`p75_size`, `p90_size`; computed but read by no
consumer).  `std_size` and `font_variety` are consumed nowhere and are not
modelled.  In the empty-size early return the source omits the percentile
keys entirely; since no code reads them, they are set to the default size
12 here. -/
structure FontStats where
  avgSize : ℚ
  maxSize : ℚ
  p75Size : ℚ
  p90Size : ℚ
  deriving DecidableEq

/-- `max(font_sizes)` for a nonempty list (0 is never used: callers guard). -/
def qMax : List ℚ → ℚ
  | [] => 0
  | x :: xs => xs.foldl max x

/-- `analyze_font_statistics`: sizes are collected only when truthy
(`if ... and block.font_size:`), i.e. nonzero; the empty collection yields
the default record; percentile indices are `int(0.75*n)` and `int(0.90*n)`,
which equal `3*n/4` and `9*n/10` in integer arithmetic for every list size
a document can have. -/
def fontStatistics (blocks : List Block) : FontStats :=
  let sizes := (blocks.map Block.font_size).filter (fun s => decide (s ≠ 0))
  if sizes.isEmpty then ⟨12, 12, 12, 12⟩
  else
    let n := sizes.length
    let sorted := sizes.mergeSort (fun a b => decide (a ≤ b))
    { avgSize := sizes.sum / n
      maxSize := qMax sizes
      p75Size := sorted.getD (3 * n / 4) 0
      p90Size := sorted.getD (9 * n / 10) 0 }

/-- `position_ratio = i / total_blocks if total_blocks > 1 else 0.0`. -/
def posFrac (i total : Nat) : ℚ :=
  if 1 < total then (i : ℚ) / (total : ℚ) else 0

/-- Size-tier term of `_calculate_heading_confidence`. -/
def sizeTierConf (r : ℚ) : ℚ :=
  if r ≥ 1.5 then 0.4
  else if r ≥ 1.25 then 0.3
  else if r ≥ 1.1 then 0.2
  else if r ≥ 1.05 then 0.1
  else 0

/-- Word-count term of `_calculate_heading_confidence`
(`2<=wc<=10` → +0.1, `elif wc<=20` → +0.05, `elif wc>30` → −0.1). -/
def confWordBonus (wc : Nat) : ℚ :=
  if 2 ≤ wc ∧ wc ≤ 10 then 0.1
  else if wc ≤ 20 then 0.05
  else if wc > 30 then -0.1
  else 0

/-- `text.startswith(text[0].upper())`: the first character equals its own
uppercase form.  (Python raises on the empty string; the extractor only
calls this with stripped text of length ≥ 2, so the `[]` branch is inert.) -/
def startsOwnUpper (s : String) : Bool :=
  match s.toList with
  | c :: _ => c = c.toUpper
  | [] => false

/-- `_calculate_heading_confidence(text, font_size, font_stats, is_bold,
position_ratio)`: additive score capped above at 1.0 — no lower clamp. -/
def calcHeadingConfidence (text : String) (fontSize : ℚ) (stats : FontStats)
    (isBold : Bool) (pf : ℚ) : ℚ :=
  let r := if stats.avgSize > 0 then fontSize / stats.avgSize else 1
  min (sizeTierConf r
      + (if isBold then 0.15 else 0)
      + (1 - pf) * 0.2
      + patternBonusConf text
      + keywordBonusConf (pyLower text)
      + confWordBonus (wordCount text)
      + (if startsOwnUpper text then 0.05 else 0)) 1

/-- Length penalty of `classify_heading_level_dynamic`: the source checks
`word_count > 15` first and only then `elif word_count > 25`, so the −1.0
branch is unreachable. -/
def levelLengthPenalty (wc : Nat) : ℚ :=
  if wc > 15 then -0.5
  else if wc > 25 then -1.0
  else 0

/-- `classify_heading_level_dynamic(text, font_size, font_stats, is_bold,
position_ratio)`. -/
def classifyHeadingLevel (text : String) (fontSize : ℚ) (stats : FontStats)
    (isBold : Bool) (pf : ℚ) : String :=
  let tc := pyStrip text
  let r := if stats.avgSize > 0 then fontSize / stats.avgSize else 1
  let sizeTerm : ℚ :=
    if fontSize ≥ stats.maxSize * 0.95 then 4.0
    else if r ≥ 1.4 then 3.5
    else if r ≥ 1.25 then 3.0
    else if r ≥ 1.15 then 2.5
    else if r ≥ 1.05 then 2.0
    else 1.0
  let patternTerm : ℚ :=
    if matchN1 tc then 0.8
    else if matchN2 tc then 0.4
    else if matchN3 tc then 0.2
    else if pyIsUpperStr tc ∧ wordCount tc ≤ 6 then 0.6
    else if matchTitleColonStrict tc then 0.3
    else 0
  let score := sizeTerm + (if isBold then 0.5 else 0) + (1 - pf) * 0.3
    + patternTerm + keywordBonusLevel (pyLower tc)
    + levelLengthPenalty (wordCount tc)
  if score ≥ 3.8 then "H1"
  else if score ≥ 3.0 then "H2"
  else if score ≥ 2.2 then "H3"
  else "H4"

/-!  `extract_title_dynamic`. -/

/-- Word-count bonus of `extract_title_dynamic`
(`2 <= word_count <= 15` → +0.2, `elif word_count <= 25` → +0.1; the
`elif` also catches word counts 0 and 1). -/
def titleWordCountBonus (wc : Nat) : ℚ :=
  if 2 ≤ wc ∧ wc ≤ 15 then 0.2
  else if wc ≤ 25 then 0.1
  else 0

/-- `':' in text and not text.endswith(':')`. -/
def colonNotLast (s : String) : Bool :=
  s.toList.contains ':' &&
    match s.toList.getLast? with
    | some c => decide (c ≠ ':')
    | none => true

/-- A title candidate tuple `(text, score, i, font_size)`. -/
structure TitleCand where
  text : String
  score : ℚ
  idx : Nat
  fsize : ℚ
  deriving DecidableEq

/-- Descending tuple order for
`title_candidates.sort(key=lambda x: (x[1], x[3], -x[2]), reverse=True)`:
score desc, then font size desc, then index asc.  All candidate indices are
distinct, so this Boolean total order determines the sorted list uniquely
and Python's stable sort and `mergeSort` agree. -/
def titleCandGe (a b : TitleCand) : Bool :=
  decide (b.score < a.score ∨ (b.score = a.score ∧
    (b.fsize < a.fsize ∨ (b.fsize = a.fsize ∧ a.idx ≤ b.idx))))

/-- Score of one title candidate (the loop body of `extract_title_dynamic`
after the length-3 filter); `text` is the stripped block text. -/
def titleScoreOf (stats : FontStats) (limit i : Nat) (b : Block)
    (text : String) : ℚ :=
  let s0 : ℚ :=
    if b.font_size ≠ 0 then
      let r := b.font_size / stats.avgSize
      if r ≥ 1.5 then 0.4
      else if r ≥ 1.2 then 0.3
      else if r ≥ 1.1 then 0.2
      else 0
    else 0
  let s1 := s0 + max 0 (((limit : ℚ) - (i : ℚ)) / (limit : ℚ) * 0.3)
  let s2 := s1 + titleWordCountBonus (wordCount text)
  let s3 := s2 + (if b.is_bold then 0.1 else 0)
  let s4 := s3 + (if startsUpperAZ text then 0.1 else 0)
  let s5 := s4 + (if colonNotLast text then 0.1 else 0)
  if text.length < 10 ∨ text.length > 200 then s5 * 0.5 else s5

/-- `extract_title_dynamic(blocks)`. -/
def extractTitle (blocks : List Block) : String :=
  if blocks.isEmpty then ""
  else
    let stats := fontStatistics blocks
    let limit := min 30 (max 10 (blocks.length / 5))
    let cands := ((blocks.take limit).enum).filterMap (fun p =>
      let text := pyStrip p.2.text
      if text.length < 3 then none
      else some (⟨text, titleScoreOf stats limit p.1 p.2 text, p.1,
        p.2.font_size⟩ : TitleCand))
    match cands.mergeSort titleCandGe with
    | [] => pyStrip ((blocks.getD 0 default).text)
    | c :: _ => c.text

/-!  `extract_headings_dynamic` and `process_document`. -/

/-- The internal heading record built in the loop of
`extract_headings_dynamic` (before the projection to `{level,text,page}`). -/
structure FullHeading where
  level : String
  text : String
  page : Nat
  confidence : ℚ
  font_size : ℚ
  position : Nat
  deriving DecidableEq

/-- An emitted outline entry `{level, text, page}`. -/
structure OutlineEntry where
  level : String
  text : String
  page : Nat
  deriving DecidableEq

/-- Descending order for
`headings.sort(key=lambda x: (x['confidence'], -x['position']), reverse=True)`:
confidence desc, then position asc.  Positions are distinct, so the order
is total and strict on the collected list. -/
def headingGe (a b : FullHeading) : Bool :=
  decide (b.confidence < a.confidence ∨
    (b.confidence = a.confidence ∧ a.position ≤ b.position))

/-- The per-block loop of `extract_headings_dynamic`: skip stripped texts of
length < 2 (this is `not text or len(text) < 2` folded into one test), skip
texts already accepted, otherwise accept iff the confidence reaches the
threshold. -/
def loopAux (t : ℚ) (stats : FontStats) (total : Nat) :
    List Block → Nat → List String → List FullHeading
  | [], _, _ => []
  | b :: bs, i, used =>
    let text := pyStrip b.text
    if text.length < 2 then loopAux t stats total bs (i + 1) used
    else if text ∈ used then loopAux t stats total bs (i + 1) used
    else if t ≤ calcHeadingConfidence text b.font_size stats b.is_bold (posFrac i total) then
      { level := classifyHeadingLevel text b.font_size stats b.is_bold (posFrac i total)
        text := text
        page := b.page
        confidence := calcHeadingConfidence text b.font_size stats b.is_bold (posFrac i total)
        font_size := b.font_size
        position := i } :: loopAux t stats total bs (i + 1) (text :: used)
    else loopAux t stats total bs (i + 1) used

/-- `_calculate_dynamic_heading_limit(total_blocks, candidate_count)`. -/
def dynamicHeadingLimit (total c : Nat) : Nat :=
  let base := max 5 (min 50 (total / 20))
  if c > base * 2 then base
  else if c < base / 2 then min c (base * 2)
  else base

/-- `extract_headings_dynamic` up to (but not including) the final field
projection: collect, sort, truncate. -/
def extractHeadingsFull (t : ℚ) (blocks : List Block) : List FullHeading :=
  if blocks.isEmpty then []
  else
    let stats := fontStatistics blocks
    let hs := loopAux t stats blocks.length blocks 0 []
    (hs.mergeSort headingGe).take (dynamicHeadingLimit blocks.length hs.length)

/-- `extract_headings_dynamic(blocks)`. -/
def extractHeadings (t : ℚ) (blocks : List Block) : List OutlineEntry :=
  (extractHeadingsFull t blocks).map (fun h => ⟨h.level, h.text, h.page⟩)

/-- The result record of `process_document`. -/
structure DocResult where
  title : String
  outline : List OutlineEntry
  deriving DecidableEq

/-- `process_document(blocks)` for an extractor constructed with
`confidence_threshold = t`. -/
def processDocument (t : ℚ) (blocks : List Block) : DocResult :=
  if blocks.isEmpty then ⟨"", []⟩
  else ⟨extractTitle blocks, extractHeadings t blocks⟩

/-- The confidence the extractor computes for the fragment at index `j` of
the document (the arguments `extract_headings_dynamic` passes to
`_calculate_heading_confidence`). -/
def blockConfidence (blocks : List Block) (j : Nat) : ℚ :=
  let b := blocks.getD j default
  calcHeadingConfidence (pyStrip b.text) b.font_size (fontStatistics blocks)
    b.is_bold (posFrac j blocks.length)

/-!  Concrete documents used to settle the value-level claims. -/

/-- A single fragment with text `"Hello"`, not bold, font size 12 (which is
then also the document average). -/
def helloBlock : Block := ⟨"Hello", 12, "F1", false, 1⟩

/-- A 31-word lowercase fragment (the comma defeats every structural
pattern, `"zz"` defeats every keyword). -/
def zzText : String :=
  "zz, zz zz zz zz zz zz zz zz zz zz zz zz zz zz zz zz zz zz zz zz zz zz zz zz zz zz zz zz zz zz"

/-- Nine fragments whose font-size multiset is [10,10,10,10,12,12,14,16,20]. -/
def szBlocks : List Block :=
  [⟨"a", 12, "F", false, 1⟩, ⟨"b", 10, "F", false, 1⟩, ⟨"c", 16, "F", false, 1⟩,
   ⟨"d", 10, "F", false, 1⟩, ⟨"e", 20, "F", false, 1⟩, ⟨"f", 12, "F", false, 1⟩,
   ⟨"g", 10, "F", false, 1⟩, ⟨"h", 14, "F", false, 1⟩, ⟨"i", 10, "F", false, 1⟩]

end PdfExtract

namespace PdfExtract

/-- C9: for the empty fragment sequence, `process_document` returns exactly
`{title: "", outline: []}` (and, being a total function, does not fail). -/
theorem claim9_empty_input (t : ℚ) : processDocument t [] = ⟨"", []⟩ := rfl

/-- C1 counterexample: for the single-fragment `"Hello"` document the claim
fails — the confidence of the fragment is exactly 0.5, which meets the
default threshold, so the outline is not empty. -/
theorem claim1_counterexample :
    processDocument 0.5 [helloBlock] ≠ ⟨"Hello", []⟩ := by
  with_unfolding_all decide

/-- C1 amended: a single-fragment document with fragment text `"Hello"`
(not bold, font size 12 = the document average) yields title `"Hello"` and
an outline containing that one fragment as an H1 heading: its confidence is
exactly 0.5, which is not below the default threshold 0.5 but meets it. -/
theorem claim1_amended_hello :
    processDocument 0.5 [helloBlock] = ⟨"Hello", [⟨"H1", "Hello", 1⟩]⟩
      ∧ blockConfidence [helloBlock] 0 = 0.5 := by
  with_unfolding_all decide

/-- C2: the `-1.0` branch of the length penalty of
`classify_heading_level_dynamic` is dead code — `word_count > 15` is tested
first, so a 26-word (or 40-word) text is penalised by −0.5, never by
−1.0. -/
theorem claim2_length_penalty_eval :
    levelLengthPenalty 26 = -0.5 ∧ levelLengthPenalty 40 = -0.5 := by
  with_unfolding_all decide

/-- C6 counterexample: the heading-candidate scorer can return a negative
confidence — a 31-word lowercase fragment matching no pattern and no
keyword, at position ratio 2/3 in a document of average size, scores
1/15 − 1/10 = −1/30 < 0. -/
theorem claim6_counterexample :
    calcHeadingConfidence zzText 12 ⟨12, 12, 12, 12⟩ false (2/3) < 0 := by
  with_unfolding_all decide

/-- C6 amended: the confidence computed by the heading-candidate scorer is
clamped above at 1.0, but no floor clamp exists, so it does not always lie
in [0.0, 1.0] — it can be negative. -/
theorem claim6_upper_clamp (text : String) (fontSize : ℚ) (stats : FontStats)
    (isBold : Bool) (pf : ℚ) :
    calcHeadingConfidence text fontSize stats isBold pf ≤ 1 := by
  unfold calcHeadingConfidence
  exact min_le_right _ _

/-- C7 counterexample: for the font-size multiset [10,10,10,10,12,12,14,16,20]
the element at 0-indexed position 6 of the ascending-sorted list is 14, not
16, so `p75Size` is not 16. -/
theorem claim7_counterexample : (fontStatistics szBlocks).p75Size ≠ 16 := by
  with_unfolding_all decide

/-- C7 amended: for the font-size multiset [10,10,10,10,12,12,14,16,20]
(n = 9), `p75Size` is the element at 0-indexed position `floor(0.75×9)=6`
of the ascending-sorted list, namely 14, and `p90Size` is the element at
position `floor(0.90×9)=8`, namely 20 (truncating division). -/
theorem claim7_percentiles :
    (fontStatistics szBlocks).p75Size = 14
      ∧ (fontStatistics szBlocks).p90Size = 20 := by
  with_unfolding_all decide

/-- C8 counterexample: the title word-count bonus of a 1-word candidate is
0.1, not 0 — the `elif word_count <= 25` branch also catches word counts
below 2. -/
theorem claim8_counterexample : ¬ titleWordCountBonus 1 = 0 := by
  with_unfolding_all decide

/-- C8 amended: in title inference the word-count bonus is +0.2 for 2–15
words and +0.1 for every other word count up to 25 — including 0-word and
1-word candidates — and +0 only above 25 words. -/
theorem claim8_word_bonus :
    (∀ wc, 2 ≤ wc → wc ≤ 15 → titleWordCountBonus wc = 0.2)
      ∧ (∀ wc, 16 ≤ wc → wc ≤ 25 → titleWordCountBonus wc = 0.1)
      ∧ (∀ wc, wc ≤ 1 → titleWordCountBonus wc = 0.1)
      ∧ (∀ wc, 25 < wc → titleWordCountBonus wc = 0) := by
  refine ⟨?_, ?_, ?_, ?_⟩
  · intro wc h1 h2
    simp only [titleWordCountBonus]
    rw [if_pos ⟨h1, h2⟩]
  · intro wc h1 h2
    simp only [titleWordCountBonus]
    rw [if_neg (by omega), if_pos h2]
  · intro wc h1
    simp only [titleWordCountBonus]
    rw [if_neg (by omega), if_pos (by omega)]
  · intro wc h1
    simp only [titleWordCountBonus]
    rw [if_neg (by omega), if_neg (by omega)]

/-- C8 witness: the amended bonus table evaluated at 5, 20, 1 and 30
words. -/
theorem claim8_witness :
    titleWordCountBonus 5 = 0.2 ∧ titleWordCountBonus 20 = 0.1
      ∧ titleWordCountBonus 1 = 0.1 ∧ titleWordCountBonus 30 = 0 :=
  ⟨claim8_word_bonus.1 5 (by decide) (by decide),
   claim8_word_bonus.2.1 20 (by decide) (by decide),
   claim8_word_bonus.2.2.1 1 (by decide),
   claim8_word_bonus.2.2.2 30 (by decide)⟩

/-!  A match of each of the five patterns preceding `all_caps` in the
`heading_indicators` priority order forces a character that the `all_caps`
class excludes. -/

lemma nsRun_true_mem {l : List Char} (h : nsRun true l = true) : '.' ∈ l := by
  induction l with
  | nil => simp [nsRun] at h
  | cons c rest ih =>
    by_cases hd : c.isDigit
    · simp only [nsRun, hd, if_pos] at h
      exact List.mem_cons_of_mem _ (ih h)
    · by_cases hp : c = '.'
      · exact hp ▸ List.mem_cons_self _ _
      · simp [nsRun, hd, hp] at h

lemma icNumberedSection_true_mem {s : String}
    (h : icNumberedSection s = true) : '.' ∈ s.toList := by
  unfold icNumberedSection at h
  split at h
  · rename_i c rest heq
    rw [Bool.and_eq_true] at h
    exact heq ▸ List.mem_cons_of_mem _ (nsRun_true_mem h.2)
  · exact absurd h (by simp)

lemma nlRun_true_mem {l : List Char} (h : nlRun l = true) : ')' ∈ l := by
  induction l with
  | nil => simp [nlRun] at h
  | cons c rest ih =>
    by_cases hd : c.isDigit
    · simp only [nlRun, hd, if_pos] at h
      exact List.mem_cons_of_mem _ (ih h)
    · by_cases hp : c = ')'
      · exact hp ▸ List.mem_cons_self _ _
      · simp [nlRun, hd, hp] at h

lemma icNumberedList_true_mem {s : String}
    (h : icNumberedList s = true) : ')' ∈ s.toList := by
  unfold icNumberedList at h
  split at h
  · rename_i c rest heq
    rw [Bool.and_eq_true] at h
    exact heq ▸ List.mem_cons_of_mem _ (nlRun_true_mem h.2)
  · exact absurd h (by simp)

lemma icLetteredList_true_mem {s : String}
    (h : icLetteredList s = true) : ')' ∈ s.toList := by
  unfold icLetteredList at h
  split at h
  · rename_i c0 c2 rest heq
    rw [heq]
    exact List.mem_cons_of_mem _ (List.mem_cons_self _ _)
  · exact absurd h (by simp)

lemma icBulletPoint_true_mem {s : String} (h : icBulletPoint s = true) :
    ∃ c ∈ s.toList, isBulletChar c = true := by
  unfold icBulletPoint at h
  split at h
  · rename_i c0 c1 rest heq
    rw [Bool.and_eq_true] at h
    exact ⟨c0, heq ▸ List.mem_cons_self _ _, h.1⟩
  · exact absurd h (by simp)

lemma tccTail_true_mem {l : List Char} (h : tccTail l = true) : ':' ∈ l := by
  induction l with
  | nil => simp [tccTail] at h
  | cons c rest ih =>
    cases rest with
    | nil =>
      have : c = ':' := by simpa [tccTail] using h
      exact this ▸ List.mem_cons_self _ _
    | cons c2 rest2 =>
      simp only [tccTail, Bool.and_eq_true] at h
      exact List.mem_cons_of_mem _ (ih h.2)

lemma icTitleCaseColon_true_mem {s : String}
    (h : icTitleCaseColon s = true) : ':' ∈ s.toList := by
  unfold icTitleCaseColon at h
  split at h
  · rename_i c0 c1 rest heq
    rw [Bool.and_eq_true, Bool.and_eq_true] at h
    exact heq ▸ List.mem_cons_of_mem _ (List.mem_cons_of_mem _ (tccTail_true_mem h.2))
  · exact absurd h (by simp)

/-- C10: the heading-candidate scorer matches its structural patterns with
`re.IGNORECASE`, so for every fragment text consisting only of letters,
digits, spaces, hyphens and underscores (in particular texts with lowercase
letters such as `"Hello"`), the `all_caps` pattern fires — no
higher-priority pattern can match such text — and the pattern bonus is
exactly +0.2. -/
theorem claim10_all_caps_ignorecase (text : String) (h0 : text.toList ≠ [])
    (h : ∀ c ∈ text.toList, allCapsClass c = true) :
    patternBonusConf text = 0.2 := by
  have hdot : '.' ∉ text.toList := fun hm => absurd (h _ hm) (by decide)
  have hpar : ')' ∉ text.toList := fun hm => absurd (h _ hm) (by decide)
  have hcol : ':' ∉ text.toList := fun hm => absurd (h _ hm) (by decide)
  have h1 : icNumberedSection text = false :=
    Bool.eq_false_iff.mpr fun hx => hdot (icNumberedSection_true_mem hx)
  have h2 : icNumberedList text = false :=
    Bool.eq_false_iff.mpr fun hx => hpar (icNumberedList_true_mem hx)
  have h3 : icLetteredList text = false :=
    Bool.eq_false_iff.mpr fun hx => hpar (icLetteredList_true_mem hx)
  have h4 : icBulletPoint text = false := by
    refine Bool.eq_false_iff.mpr fun hx => ?_
    obtain ⟨c, hc, hb⟩ := icBulletPoint_true_mem hx
    have hclass := h _ hc
    revert hclass
    simp only [allCapsClass]
    rcases (by simpa [isBulletChar] using hb :
        (((((c = '•' ∨ c = '·') ∨ c = '▪') ∨ c = '▫') ∨ c = '◦') ∨ c = '‣') ∨ c = '⁃')
      with ((((((rfl | rfl) | rfl) | rfl) | rfl) | rfl) | rfl) <;> decide
  have h5 : icTitleCaseColon text = false :=
    Bool.eq_false_iff.mpr fun hx => hcol (icTitleCaseColon_true_mem hx)
  have h6 : icAllCaps text = true := by
    simp only [icAllCaps, Bool.and_eq_true, Bool.not_eq_true', List.all_eq_true]
    exact ⟨by simpa using h0, h⟩
  simp [patternBonusConf, h1, h2, h3, h4, h5, h6]

/-- C10 witness: the mixed-case text `"Hello"` (letters only, containing
lowercase letters) receives the `all_caps` bonus of +0.2. -/
theorem claim10_witness : patternBonusConf "Hello" = 0.2 :=
  claim10_all_caps_ignorecase "Hello" (by decide) (by decide)

/-!  The adaptive cap. -/

lemma dynamicHeadingLimit_le_twice (total c : Nat) :
    dynamicHeadingLimit total c ≤ (max 5 (min 50 (total / 20))) * 2 := by
  simp only [dynamicHeadingLimit]
  split
  · omega
  · split
    · exact le_trans (Nat.min_le_right _ _) le_rfl
    · omega

lemma extractHeadings_length_le (t : ℚ) (blocks : List Block) :
    (extractHeadings t blocks).length ≤ (max 5 (min 50 (blocks.length / 20))) * 2 := by
  unfold extractHeadings extractHeadingsFull
  rw [List.length_map]
  split
  · simp
  · exact le_trans (List.length_take_le _ _) (dynamicHeadingLimit_le_twice _ _)

/-- C4: the emitted outline never exceeds twice the base limit
`max(5, min(50, totalFragments/20))`, and the adaptive cap is computed from
the base exactly as specified (base when candidates exceed 2×base,
min(candidates, 2×base) when candidates are below base/2, base
otherwise). -/
theorem claim4_cap_bound (t : ℚ) (blocks : List Block) :
    (processDocument t blocks).outline.length
        ≤ (max 5 (min 50 (blocks.length / 20))) * 2
    ∧ ∀ total c, dynamicHeadingLimit total c =
        (if c > (max 5 (min 50 (total / 20))) * 2 then max 5 (min 50 (total / 20))
         else if c < (max 5 (min 50 (total / 20))) / 2 then
           min c ((max 5 (min 50 (total / 20))) * 2)
         else max 5 (min 50 (total / 20))) := by
  constructor
  · unfold processDocument
    split
    · simp
    · exact extractHeadings_length_le t blocks
  · intro total c
    rfl

/-!  Threshold monotonicity.  The key invariant: running the accept loop at
the higher threshold with a smaller duplicate-set can accept at most as
many headings, counting the head start `used1.length - used2.length`. -/

lemma loopAux_length_mono (stats : FontStats) (total : Nat) {t1 t2 : ℚ}
    (h12 : t1 ≤ t2) :
    ∀ (bs : List Block) (i : Nat) (used1 used2 : List String),
      used2 ⊆ used1 → used2.Nodup →
      (loopAux t2 stats total bs i used2).length + used2.length
        ≤ (loopAux t1 stats total bs i used1).length + used1.length := by
  intro bs
  induction bs with
  | nil =>
    intro i used1 used2 hsub hnd
    simpa [loopAux] using (hnd.subperm hsub).length_le
  | cons b bs ih =>
    intro i used1 used2 hsub hnd
    simp only [loopAux]
    by_cases hl : (pyStrip b.text).length < 2
    · simp only [if_pos hl]
      exact ih (i + 1) used1 used2 hsub hnd
    · simp only [if_neg hl]
      by_cases hm2 : pyStrip b.text ∈ used2
      · have hm1 : pyStrip b.text ∈ used1 := hsub hm2
        simp only [if_pos hm1, if_pos hm2]
        exact ih (i + 1) used1 used2 hsub hnd
      · by_cases hm1 : pyStrip b.text ∈ used1
        · simp only [if_pos hm1, if_neg hm2]
          by_cases hc2 : t2 ≤ calcHeadingConfidence (pyStrip b.text) b.font_size
              stats b.is_bold (posFrac i total)
          · simp only [if_pos hc2, List.length_cons]
            have hrec := ih (i + 1) used1 (pyStrip b.text :: used2)
              (List.cons_subset.mpr ⟨hm1, hsub⟩) (List.nodup_cons.mpr ⟨hm2, hnd⟩)
            simp only [List.length_cons] at hrec
            omega
          · simp only [if_neg hc2]
            exact ih (i + 1) used1 used2 hsub hnd
        · simp only [if_neg hm1, if_neg hm2]
          by_cases hc2 : t2 ≤ calcHeadingConfidence (pyStrip b.text) b.font_size
              stats b.is_bold (posFrac i total)
          · have hc1 := le_trans h12 hc2
            simp only [if_pos hc2, if_pos hc1, List.length_cons]
            have hrec := ih (i + 1) (pyStrip b.text :: used1) (pyStrip b.text :: used2)
              (List.cons_subset_cons _ hsub) (List.nodup_cons.mpr ⟨hm2, hnd⟩)
            simp only [List.length_cons] at hrec
            omega
          · by_cases hc1 : t1 ≤ calcHeadingConfidence (pyStrip b.text) b.font_size
                stats b.is_bold (posFrac i total)
            · simp only [if_pos hc1, if_neg hc2, List.length_cons]
              have hrec := ih (i + 1) (pyStrip b.text :: used1) used2
                (hsub.trans (List.subset_cons_self _ _)) hnd
              simp only [List.length_cons] at hrec
              omega
            · simp only [if_neg hc1, if_neg hc2]
              exact ih (i + 1) used1 used2 hsub hnd

/-- Truncating the candidate list to the adaptive cap always leaves exactly
`min base candidates` entries: the cap differs from the base only when it
cannot matter. -/
lemma min_dynamicHeadingLimit (total c : Nat) :
    min (dynamicHeadingLimit total c) c = min (max 5 (min 50 (total / 20))) c := by
  simp only [dynamicHeadingLimit]
  split
  · rfl
  · split
    · omega
    · rfl

lemma extractHeadings_length (t : ℚ) (blocks : List Block) :
    (extractHeadings t blocks).length
      = if blocks.isEmpty then 0
        else min (max 5 (min 50 (blocks.length / 20)))
          (loopAux t (fontStatistics blocks) blocks.length blocks 0 []).length := by
  unfold extractHeadings extractHeadingsFull
  rw [List.length_map]
  by_cases hE : blocks.isEmpty
  · simp [hE]
  · simp only [hE, if_neg, if_false, Bool.false_eq_true]
    rw [List.length_take, List.length_mergeSort, min_dynamicHeadingLimit]

lemma extractHeadings_length_mono (blocks : List Block) {t1 t2 : ℚ}
    (h : t1 ≤ t2) :
    (extractHeadings t2 blocks).length ≤ (extractHeadings t1 blocks).length := by
  rw [extractHeadings_length, extractHeadings_length]
  by_cases hE : blocks.isEmpty
  · simp [hE]
  · simp only [hE, if_false, Bool.false_eq_true]
    refine min_le_min (le_refl _) ?_
    have hrec := loopAux_length_mono (fontStatistics blocks) blocks.length h
      blocks 0 [] [] (by simp) List.nodup_nil
    simpa using hrec

/-- C3: for every fragment sequence and thresholds `t1 ≤ t2`, the outline
produced by `process_document` at threshold `t2` is no longer than the one
produced at threshold `t1`. -/
theorem claim3_threshold_monotone (blocks : List Block) (t1 t2 : ℚ)
    (h : t1 ≤ t2) :
    (processDocument t2 blocks).outline.length
      ≤ (processDocument t1 blocks).outline.length := by
  unfold processDocument
  by_cases hE : blocks.isEmpty
  · simp [hE]
  · simp only [hE, if_false, Bool.false_eq_true]
    exact extractHeadings_length_mono blocks h

/-- C3 witness: thresholds 1/4 ≤ 1/2 on the one-fragment document. -/
theorem claim3_witness :
    (1 : ℚ)/4 ≤ 1/2
      ∧ (processDocument (1/2) [helloBlock]).outline.length
          ≤ (processDocument (1/4) [helloBlock]).outline.length :=
  ⟨by norm_num, claim3_threshold_monotone [helloBlock] (1/4) (1/2) (by norm_num)⟩

/-!  De-duplication invariants of the accept loop. -/

lemma loopAux_text_facts (t : ℚ) (stats : FontStats) (total : Nat) :
    ∀ (bs : List Block) (i : Nat) (used : List String),
      (∀ h ∈ loopAux t stats total bs i used, h.text ∉ used)
        ∧ (loopAux t stats total bs i used).Pairwise (fun a b => a.text ≠ b.text) := by
  intro bs
  induction bs with
  | nil => intro i used; simp [loopAux]
  | cons b bs ih =>
    intro i used
    simp only [loopAux]
    by_cases hl : (pyStrip b.text).length < 2
    · simp only [if_pos hl]
      exact ih (i + 1) used
    · simp only [if_neg hl]
      by_cases hm : pyStrip b.text ∈ used
      · simp only [if_pos hm]
        exact ih (i + 1) used
      · simp only [if_neg hm]
        by_cases hc : t ≤ calcHeadingConfidence (pyStrip b.text) b.font_size
            stats b.is_bold (posFrac i total)
        · simp only [if_pos hc]
          obtain ⟨ihNot, ihPw⟩ := ih (i + 1) (pyStrip b.text :: used)
          constructor
          · intro h hmem
            rcases List.mem_cons.mp hmem with rfl | hmem2
            · exact hm
            · exact fun hin => ihNot h hmem2 (List.mem_cons_of_mem _ hin)
          · refine List.pairwise_cons.mpr ⟨?_, ihPw⟩
            intro h hmem heq
            exact ihNot h hmem (List.mem_cons.mpr (Or.inl heq.symm))
        · simp only [if_neg hc]
          exact ih (i + 1) used

/-!  Every accepted heading records the earliest qualifying occurrence of
its text: its position indexes a fragment with that stripped text whose
confidence reaches the threshold, and every earlier fragment with the same
stripped text falls below the threshold. -/

lemma loopAux_accept_spec (t : ℚ) (stats : FontStats) (total : Nat) :
    ∀ (bs : List Block) (i : Nat) (used : List String),
      ∀ h ∈ loopAux t stats total bs i used,
        h.text ∉ used ∧
        ∃ k, k < bs.length ∧ h.position = i + k
          ∧ h.text = pyStrip ((bs.getD k default).text)
          ∧ 2 ≤ h.text.length
          ∧ t ≤ calcHeadingConfidence (pyStrip ((bs.getD k default).text))
              ((bs.getD k default).font_size) stats ((bs.getD k default).is_bold)
              (posFrac (i + k) total)
          ∧ ∀ j, j < k → pyStrip ((bs.getD j default).text) = h.text →
              ¬ t ≤ calcHeadingConfidence (pyStrip ((bs.getD j default).text))
                ((bs.getD j default).font_size) stats ((bs.getD j default).is_bold)
                (posFrac (i + j) total) := by
  intro bs
  induction bs with
  | nil => intro i used h hmem; simp [loopAux] at hmem
  | cons b bs ih =>
    intro i used h hmem
    simp only [loopAux] at hmem
    by_cases hl : (pyStrip b.text).length < 2
    · rw [if_pos hl] at hmem
      obtain ⟨hused, k, hk, hpos, htext, hlen, hconf, hearly⟩ := ih (i + 1) used h hmem
      refine ⟨hused, k + 1, by simpa using Nat.succ_lt_succ hk, by omega,
        by simpa [List.getD_cons_succ] using htext, hlen, ?_, ?_⟩
      · have : i + 1 + k = i + (k + 1) := by omega
        simpa [List.getD_cons_succ, this] using hconf
      · intro j hj hjtext
        cases j with
        | zero =>
          rw [List.getD_cons_zero] at hjtext
          exact absurd (hjtext ▸ hlen) (by omega)
        | succ j2 =>
          have hidx : i + 1 + j2 = i + (j2 + 1) := by omega
          have := hearly j2 (by omega) (by simpa [List.getD_cons_succ] using hjtext)
          simpa [List.getD_cons_succ, hidx] using this
    · rw [if_neg hl] at hmem
      by_cases hm : pyStrip b.text ∈ used
      · rw [if_pos hm] at hmem
        obtain ⟨hused, k, hk, hpos, htext, hlen, hconf, hearly⟩ := ih (i + 1) used h hmem
        refine ⟨hused, k + 1, by simpa using Nat.succ_lt_succ hk, by omega,
          by simpa [List.getD_cons_succ] using htext, hlen, ?_, ?_⟩
        · have : i + 1 + k = i + (k + 1) := by omega
          simpa [List.getD_cons_succ, this] using hconf
        · intro j hj hjtext
          cases j with
          | zero =>
            rw [List.getD_cons_zero] at hjtext
            exact absurd (hjtext ▸ hm) hused
          | succ j2 =>
            have hidx : i + 1 + j2 = i + (j2 + 1) := by omega
            have := hearly j2 (by omega) (by simpa [List.getD_cons_succ] using hjtext)
            simpa [List.getD_cons_succ, hidx] using this
      · rw [if_neg hm] at hmem
        by_cases hc : t ≤ calcHeadingConfidence (pyStrip b.text) b.font_size
            stats b.is_bold (posFrac i total)
        · rw [if_pos hc] at hmem
          rcases List.mem_cons.mp hmem with rfl | hmem2
          · refine ⟨hm, 0, by simp, by simp, by simp,
              by show 2 ≤ (pyStrip b.text).length; omega, ?_,
              fun j hj _ => absurd hj (Nat.not_lt_zero j)⟩
            simpa using hc
          · obtain ⟨hused, k, hk, hpos, htext, hlen, hconf, hearly⟩ :=
              ih (i + 1) (pyStrip b.text :: used) h hmem2
            have hne : h.text ≠ pyStrip b.text :=
              fun he => hused (List.mem_cons.mpr (Or.inl he))
            have hused2 : h.text ∉ used :=
              fun he => hused (List.mem_cons_of_mem _ he)
            refine ⟨hused2, k + 1, by simpa using Nat.succ_lt_succ hk, by omega,
              by simpa [List.getD_cons_succ] using htext, hlen, ?_, ?_⟩
            · have : i + 1 + k = i + (k + 1) := by omega
              simpa [List.getD_cons_succ, this] using hconf
            · intro j hj hjtext
              cases j with
              | zero =>
                rw [List.getD_cons_zero] at hjtext
                exact absurd hjtext.symm hne
              | succ j2 =>
                have hidx : i + 1 + j2 = i + (j2 + 1) := by omega
                have := hearly j2 (by omega) (by simpa [List.getD_cons_succ] using hjtext)
                simpa [List.getD_cons_succ, hidx] using this
        · rw [if_neg hc] at hmem
          obtain ⟨hused, k, hk, hpos, htext, hlen, hconf, hearly⟩ := ih (i + 1) used h hmem
          refine ⟨hused, k + 1, by simpa using Nat.succ_lt_succ hk, by omega,
            by simpa [List.getD_cons_succ] using htext, hlen, ?_, ?_⟩
          · have : i + 1 + k = i + (k + 1) := by omega
            simpa [List.getD_cons_succ, this] using hconf
          · intro j hj hjtext
            cases j with
            | zero =>
              rw [List.getD_cons_zero] at hjtext
              rw [List.getD_cons_zero]
              exact fun hle => hc (hjtext ▸ hle)
            | succ j2 =>
              have hidx : i + 1 + j2 = i + (j2 + 1) := by omega
              have := hearly j2 (by omega) (by simpa [List.getD_cons_succ] using hjtext)
              simpa [List.getD_cons_succ, hidx] using this

lemma mem_extractHeadingsFull {t : ℚ} {blocks : List Block} {h : FullHeading}
    (hm : h ∈ extractHeadingsFull t blocks) :
    h ∈ loopAux t (fontStatistics blocks) blocks.length blocks 0 [] := by
  unfold extractHeadingsFull at hm
  split at hm
  · simp at hm
  · exact List.mem_mergeSort.mp ((List.take_sublist _ _).subset hm)

lemma extractHeadingsFull_pairwise (t : ℚ) (blocks : List Block) :
    (extractHeadingsFull t blocks).Pairwise (fun a b => a.text ≠ b.text) := by
  unfold extractHeadingsFull
  split
  · exact List.Pairwise.nil
  · refine List.Pairwise.sublist (List.take_sublist _ _) ?_
    exact (List.Perm.pairwise_iff (fun hxy => hxy.symm)
        (List.mergeSort_perm _ _)).mpr
      (loopAux_text_facts t (fontStatistics blocks) blocks.length blocks 0 []).2

lemma extractHeadingsFull_spec (t : ℚ) (blocks : List Block) :
    ∀ h ∈ extractHeadingsFull t blocks,
      h.position < blocks.length
      ∧ h.text = pyStrip ((blocks.getD h.position default).text)
      ∧ 2 ≤ h.text.length
      ∧ t ≤ blockConfidence blocks h.position
      ∧ ∀ j, j < h.position →
          pyStrip ((blocks.getD j default).text) = h.text →
          blockConfidence blocks j < t := by
  intro h hm
  obtain ⟨-, k, hk, hpos, htext, hlen, hconf, hearly⟩ :=
    loopAux_accept_spec t (fontStatistics blocks) blocks.length blocks 0 []
      h (mem_extractHeadingsFull hm)
  have hpk : h.position = k := by omega
  have h0k : 0 + k = k := by omega
  rw [h0k] at hconf
  refine ⟨by omega, by rw [hpk]; exact htext, hlen, ?_, ?_⟩
  · rw [hpk]
    exact hconf
  · intro j hj hjt
    rw [hpk] at hj
    have hne := hearly j hj hjt
    have h0j : 0 + j = j := by omega
    rw [h0j] at hne
    exact lt_of_not_ge hne

/-- C5: no two entries of the emitted outline share a text, every emitted
text is non-empty, and every emitted heading records the earliest
occurrence (in sequence order) of its stripped text that passes the
confidence threshold — every earlier fragment with the same stripped text
falls below the threshold. -/
theorem claim5_outline_invariants (t : ℚ) (blocks : List Block) :
    (processDocument t blocks).outline.Pairwise (fun a b => a.text ≠ b.text)
    ∧ (∀ e ∈ (processDocument t blocks).outline, e.text ≠ "")
    ∧ (∀ h ∈ extractHeadingsFull t blocks,
        h.position < blocks.length
        ∧ h.text = pyStrip ((blocks.getD h.position default).text)
        ∧ t ≤ blockConfidence blocks h.position
        ∧ ∀ j, j < h.position →
            pyStrip ((blocks.getD j default).text) = h.text →
            blockConfidence blocks j < t) := by
  refine ⟨?_, ?_, fun h hm => ?_⟩
  · unfold processDocument
    by_cases hE : blocks.isEmpty
    · simp [hE]
    · simp only [hE, if_false, Bool.false_eq_true]
      exact List.pairwise_map.mpr (extractHeadingsFull_pairwise t blocks)
  · intro e he
    unfold processDocument at he
    by_cases hE : blocks.isEmpty
    · simp [hE] at he
    · simp only [hE, if_false, Bool.false_eq_true] at he
      obtain ⟨h, hm, rfl⟩ := List.mem_map.mp he
      have hlen := (extractHeadingsFull_spec t blocks h hm).2.2.1
      intro heq
      dsimp only at heq
      rw [heq] at hlen
      exact absurd hlen (by decide)
  · obtain ⟨h1, h2, -, h4, h5⟩ := extractHeadingsFull_spec t blocks h hm
    exact ⟨h1, h2, h4, h5⟩

/-- C5 witness: in a two-fragment document whose fragments both strip to
`"Hello"` and both reach the threshold, the emitted entry has non-empty
text and the emitted heading sits at position 0 — the earlier fragment. -/
theorem claim5_witness :
    (⟨"H1", "Hello", 1⟩ : OutlineEntry).text ≠ ""
      ∧ (⟨"H1", "Hello", 1, 1/2, 12, 0⟩ : FullHeading).position < 2 := by
  constructor
  · exact (claim5_outline_invariants (1/2) [helloBlock, ⟨"Hello", 12, "F1", false, 2⟩]).2.1
      _ (by with_unfolding_all decide)
  · have := ((claim5_outline_invariants (1/2) [helloBlock, ⟨"Hello", 12, "F1", false, 2⟩]).2.2
      (⟨"H1", "Hello", 1, 1/2, 12, 0⟩ : FullHeading) (by with_unfolding_all decide)).1
    exact this

end PdfExtract




